import Mathlib

/-!
Verification of the config-engine repository: a versioned, schema-validated,
in-memory configuration store.  The development shallowly embeds the Go
sources (`internal/models`, `internal/validation`, `internal/repository`,
`internal/service`) as pure Lean functions: the mutable in-memory store
becomes an explicit `Store` value threaded through every operation, the Go
`time.Now()` calls become an explicit `now : Nat` parameter, and Go's
`map[string]interface{}` documents become a recursive JSON value type.
A second, address-carrying model of the repository layer is used to reason
about reference aliasing of the Go maps.
-/

namespace ConfigEngine

/-! ## JSON document values

Go's `map[string]interface{}` JSON documents, embedded as a recursive tagged
value.  `float` keeps an opaque literal representation: the schema engine's
strict integer typing only needs to know that the value is a number that is
not carried as an integer.  Mutual inductives (rather than `List` nesting)
keep all recursion structural, so everything below evaluates by `decide`. -/

mutual
inductive JsonVal where
  | null
  | bool (b : Bool)
  | int (n : Int)
  | float (lit : String)
  | str (s : String)
  | arr (xs : JsonArr)
  | obj (fs : JsonObj)

inductive JsonArr where
  | nil
  | cons (v : JsonVal) (rest : JsonArr)

/-- A JSON object as an ordered association of keys to values
(Go `map[string]interface{}`). -/
inductive JsonObj where
  | nil
  | cons (k : String) (v : JsonVal) (rest : JsonObj)
end

mutual
def JsonVal.beq : JsonVal → JsonVal → Bool
  | .null, .null => true
  | .bool x, .bool y => x == y
  | .int x, .int y => x == y
  | .float x, .float y => x == y
  | .str x, .str y => x == y
  | .arr xs, .arr ys => JsonArr.beq xs ys
  | .obj xs, .obj ys => JsonObj.beq xs ys
  | _, _ => false

def JsonArr.beq : JsonArr → JsonArr → Bool
  | .nil, .nil => true
  | .cons x xs, .cons y ys => JsonVal.beq x y && JsonArr.beq xs ys
  | _, _ => false

def JsonObj.beq : JsonObj → JsonObj → Bool
  | .nil, .nil => true
  | .cons k1 v1 xs, .cons k2 v2 ys => k1 == k2 && JsonVal.beq v1 v2 && JsonObj.beq xs ys
  | _, _ => false
end

mutual
theorem jsonVal_beq_iff : ∀ a b : JsonVal, JsonVal.beq a b = true ↔ a = b
  | .null, .null => by simp [JsonVal.beq]
  | .bool x, .bool y => by simp [JsonVal.beq]
  | .int x, .int y => by simp [JsonVal.beq]
  | .float x, .float y => by simp [JsonVal.beq]
  | .str x, .str y => by simp [JsonVal.beq]
  | .arr xs, .arr ys => by simp [JsonVal.beq, jsonArr_beq_iff xs ys]
  | .obj xs, .obj ys => by simp [JsonVal.beq, jsonObj_beq_iff xs ys]
  | .null, .bool _ | .null, .int _ | .null, .float _ | .null, .str _
  | .null, .arr _ | .null, .obj _
  | .bool _, .null | .bool _, .int _ | .bool _, .float _ | .bool _, .str _
  | .bool _, .arr _ | .bool _, .obj _
  | .int _, .null | .int _, .bool _ | .int _, .float _ | .int _, .str _
  | .int _, .arr _ | .int _, .obj _
  | .float _, .null | .float _, .bool _ | .float _, .int _ | .float _, .str _
  | .float _, .arr _ | .float _, .obj _
  | .str _, .null | .str _, .bool _ | .str _, .int _ | .str _, .float _
  | .str _, .arr _ | .str _, .obj _
  | .arr _, .null | .arr _, .bool _ | .arr _, .int _ | .arr _, .float _
  | .arr _, .str _ | .arr _, .obj _
  | .obj _, .null | .obj _, .bool _ | .obj _, .int _ | .obj _, .float _
  | .obj _, .str _ | .obj _, .arr _ => by simp [JsonVal.beq]

theorem jsonArr_beq_iff : ∀ a b : JsonArr, JsonArr.beq a b = true ↔ a = b
  | .nil, .nil => by simp [JsonArr.beq]
  | .nil, .cons _ _ => by simp [JsonArr.beq]
  | .cons _ _, .nil => by simp [JsonArr.beq]
  | .cons x xs, .cons y ys => by
      simp [JsonArr.beq, jsonVal_beq_iff x y, jsonArr_beq_iff xs ys]

theorem jsonObj_beq_iff : ∀ a b : JsonObj, JsonObj.beq a b = true ↔ a = b
  | .nil, .nil => by simp [JsonObj.beq]
  | .nil, .cons _ _ _ => by simp [JsonObj.beq]
  | .cons _ _ _, .nil => by simp [JsonObj.beq]
  | .cons k1 v1 xs, .cons k2 v2 ys => by
      simp [JsonObj.beq, jsonVal_beq_iff v1 v2, jsonObj_beq_iff xs ys, and_assoc]
end

instance : DecidableEq JsonVal := fun a b => decidable_of_iff _ (jsonVal_beq_iff a b)

instance : DecidableEq JsonArr := fun a b => decidable_of_iff _ (jsonArr_beq_iff a b)

instance : DecidableEq JsonObj := fun a b => decidable_of_iff _ (jsonObj_beq_iff a b)

/-- Key lookup in a JSON object (first binding wins, mirroring that the Go
maps hold at most one binding per key). -/
def JsonObj.lookup : JsonObj → String → Option JsonVal
  | .nil, _ => none
  | .cons k v rest, key => if k = key then some v else rest.lookup key

/-- The list of keys of a JSON object. -/
def JsonObj.keys : JsonObj → List String
  | .nil => []
  | .cons k _ rest => k :: rest.keys

/-! ## Deep copy (`repository.copyData`)

`copyData` creates a new map, recursively copying values that are themselves
maps and assigning every other value (scalars, arrays) as-is.  In this pure
value model the copy is necessarily equal to its input (`copyData_eq`); the
address-carrying model further below exposes what the copy does and does not
re-allocate. -/

mutual
/-- `repository.go copyData`: rebuild the map, recursing into nested maps. -/
def copyData : JsonObj → JsonObj
  | .nil => .nil
  | .cons k v rest => .cons k (copyDataVal v) (copyData rest)

/-- The per-value branch of `copyData`'s loop body: a nested
`map[string]interface{}` is recursively copied, `copy[k] = v` otherwise. -/
def copyDataVal : JsonVal → JsonVal
  | .obj fs => .obj (copyData fs)
  | v => v
end

mutual
theorem copyData_eq : ∀ d : JsonObj, copyData d = d
  | .nil => rfl
  | .cons k v rest => by rw [copyData, copyDataVal_eq v, copyData_eq rest]

theorem copyDataVal_eq : ∀ v : JsonVal, copyDataVal v = v
  | .null | .bool _ | .int _ | .float _ | .str _ | .arr _ => rfl
  | .obj fs => by rw [copyDataVal, copyData_eq fs]
end

/-! ## Entities and errors (`internal/models`) -/

/-- `models.Config`: the latest record of a named configuration.  Timestamps
are abstract clock readings (`Nat`). -/
structure Config where
  name : String
  type : String
  version : Int
  data : JsonObj
  createdAt : Nat
  updatedAt : Nat
deriving DecidableEq

/-- `models.ConfigVersion`: one immutable revision snapshot. -/
structure ConfigVersion where
  version : Int
  data : JsonObj
  createdAt : Nat
deriving DecidableEq

/-- The closed set of error kinds in `internal/models`. -/
inductive ConfigError where
  | validation (field message : String)
  | configNotFound (name : String)
  | configExists (name : String)
  | versionNotFound (name : String) (version : Int)
  | schemaValidation (details : String)
deriving DecidableEq

/-- `models.CreateConfigRequest`.  A `none` data field models Go's nil map
(field absent from the request body). -/
structure CreateConfigRequest where
  name : String
  type : String
  data : Option JsonObj
deriving DecidableEq

/-- `models.UpdateConfigRequest`. -/
structure UpdateConfigRequest where
  data : Option JsonObj
deriving DecidableEq

/-- `models.RollbackRequest`. -/
structure RollbackRequest where
  version : Int
deriving DecidableEq

/-! ## Association lists

The Go `map[string]*Config` / `map[string][]ConfigVersion` fields of the
repository, embedded as association lists where insertion replaces any
existing binding. -/

def alookup {α : Type} : List (String × α) → String → Option α
  | [], _ => none
  | (k, v) :: rest, key => if k = key then some v else alookup rest key

def upsert {α : Type} : List (String × α) → String → α → List (String × α)
  | [], key, v => [(key, v)]
  | (k, w) :: rest, key, v =>
      if k = key then (key, v) :: rest else (k, w) :: upsert rest key v

/-! ## Schema validation (`internal/validation`)

The repository delegates document checking to the third-party `gojsonschema`
engine, which is not part of this repository's sources.  Modelled from the
spec: the engine's behavioral contract for the schema subset this repository
registers — an object schema with per-property type constraints, a
required-property list and an `additionalProperties` flag; integer typing is
strict (a number carried in non-integral representation is not an integer);
on failure every violated field is reported with a field-path message. -/

inductive SchemaType where
  | integer
  | number
  | boolean
  | string
  | array
  | object
  | nullType
deriving DecidableEq

/-- JSON-Schema primitive type check for a document value. -/
def SchemaType.check : SchemaType → JsonVal → Bool
  | .integer, .int _ => true
  | .number, .int _ => true
  | .number, .float _ => true
  | .boolean, .bool _ => true
  | .string, .str _ => true
  | .array, .arr _ => true
  | .object, .obj _ => true
  | .nullType, .null => true
  | _, _ => false

/-- A compiled object schema: the subset of JSON Schema used by this
repository (`type: object`, typed `properties`, `required`,
`additionalProperties`). -/
structure ObjSchema where
  properties : List (String × SchemaType)
  required : List String
  additionalProperties : Bool
deriving DecidableEq

/-- Per-field violations: a present field must satisfy its declared property
type; an undeclared field is a violation unless additional properties are
allowed. -/
def checkFields (props : List (String × SchemaType)) (addl : Bool) : JsonObj → List String
  | .nil => []
  | .cons k v rest =>
      (match alookup props k with
       | some t => if t.check v then [] else [k ++ ": invalid type"]
       | none => if addl then [] else [k ++ ": additional property not allowed"]) ++
      checkFields props addl rest

/-- Required-field violations: every name in `required` must be a key of the
document. -/
def checkRequired (d : JsonObj) (req : List String) : List String :=
  req.filterMap fun k => if (d.lookup k).isSome then none else some (k ++ " is required")

/-- All violations of a document against a schema; the document validates
iff this list is empty. -/
def ObjSchema.violations (s : ObjSchema) (d : JsonObj) : List String :=
  checkRequired d s.required ++ checkFields s.properties s.additionalProperties d

/-- `validation.Validator`: the mapping from configuration type name to its
compiled schema. -/
abbrev Validator := List (String × ObjSchema)

/-- `Validator.HasSchema`. -/
def Validator.hasSchema (v : Validator) (ty : String) : Bool :=
  (alookup v ty).isSome

/-- `Validator.Validate`: `none` on success, `some message` on failure, the
message aggregating every violated field (separator as in `validator.go`). -/
def Validator.validate (v : Validator) (ty : String) (data : JsonObj) : Option String :=
  match alookup v ty with
  | none => some ("no schema found for config type: " ++ ty)
  | some s =>
      match s.violations data with
      | [] => none
      | msgs => some (String.intercalate "; " msgs)

/-- `Validator.RegisterSchema`: store the compiled schema under the type
name, replacing any prior schema. -/
def Validator.registerSchema (v : Validator) (ty : String) (s : ObjSchema) : Validator :=
  upsert v ty s

/-- The `payment_config` schema literal registered by `NewValidator`:
object with required integer `max_limit`, required boolean `enabled`, and
`additionalProperties: false`. -/
def paymentSchema : ObjSchema :=
  { properties := [("max_limit", .integer), ("enabled", .boolean)]
    required := ["max_limit", "enabled"]
    additionalProperties := false }

/-- `validation.NewValidator`: the validator with `payment_config`
pre-registered. -/
def newValidator : Validator :=
  Validator.registerSchema [] "payment_config" paymentSchema

/-! ## The in-memory repository (`internal/repository`)

`InMemoryRepository` holds two maps guarded by one readers-writer lock; the
lock disappears in this sequential embedding and the maps become the two
fields of `Store`.  Go's `time.Now()` becomes the explicit `now` argument of
the mutating operations.  Mutating operations return the Go result pair
together with the store state after the call; read-only operations (which
only take the read lock and never assign) return just the result. -/

structure Store where
  configs : List (String × Config)
  versions : List (String × List ConfigVersion)
deriving DecidableEq

def Store.empty : Store := ⟨[], []⟩

namespace Repo

/-- `InMemoryRepository.Create`: fail if the name is already present;
otherwise stamp version 1 and both timestamps, store the config record
(the caller's very object, with its data document shared), and store the
version-1 snapshot with a `copyData` copy of the data. -/
def create (s : Store) (now : Nat) (name ty : String) (data : JsonObj) :
    Except ConfigError Config × Store :=
  match alookup s.configs name with
  | some _ => (.error (.configExists name), s)
  | none =>
      let cfg : Config := ⟨name, ty, 1, data, now, now⟩
      let ver : ConfigVersion := ⟨1, copyData data, now⟩
      (.ok cfg, ⟨upsert s.configs name cfg, upsert s.versions name [ver]⟩)

/-- `InMemoryRepository.Get`: return the latest record with a `copyData`
copy of its data. -/
def get (s : Store) (name : String) : Except ConfigError Config :=
  match alookup s.configs name with
  | none => .error (.configNotFound name)
  | some cfg => .ok { cfg with data := copyData cfg.data }

/-- `InMemoryRepository.Update`: fail if the name is absent; otherwise
increment the version, carry over the creation timestamp, refresh the update
timestamp, replace the latest record, and append a snapshot (with a
`copyData` copy, its creation time the refreshed update time) to the
version list. -/
def update (s : Store) (now : Nat) (name ty : String) (data : JsonObj) :
    Except ConfigError Config × Store :=
  match alookup s.configs name with
  | none => (.error (.configNotFound name), s)
  | some existing =>
      let cfg : Config := ⟨name, ty, existing.version + 1, data, existing.createdAt, now⟩
      let ver : ConfigVersion := ⟨existing.version + 1, copyData data, now⟩
      (.ok cfg,
       ⟨upsert s.configs name cfg,
        upsert s.versions name ((alookup s.versions name).getD [] ++ [ver])⟩)

/-- `InMemoryRepository.GetVersion`: `ConfigNotFound` if the name has no
version list, `VersionNotFound` if `version < 1` or `version` exceeds the
list length; otherwise the 1-indexed entry with a `copyData` copy of its
data. -/
def getVersion (s : Store) (name : String) (version : Int) :
    Except ConfigError ConfigVersion :=
  match alookup s.versions name with
  | none => .error (.configNotFound name)
  | some vs =>
      if h : version < 1 ∨ (vs.length : Int) < version then
        .error (.versionNotFound name version)
      else
        let rev := vs.get ⟨(version - 1).toNat, by omega⟩
        .ok { rev with data := copyData rev.data }

/-- `InMemoryRepository.ListVersions`: all revisions of the name in stored
order, each with a `copyData` copy of its data. -/
def listVersions (s : Store) (name : String) : Except ConfigError (List ConfigVersion) :=
  match alookup s.versions name with
  | none => .error (.configNotFound name)
  | some vs => .ok (vs.map fun v => { v with data := copyData v.data })

end Repo

/-! ## The config service (`internal/service`)

`ConfigService` holds the repository and the validator; here the validator
is passed as a value and the store is threaded explicitly.  The per-request
`Validate()` checks of `internal/models` are inlined at the exact points the
service calls them. -/

/-- `models.VersionsResponse`. -/
structure VersionsResponse where
  name : String
  versions : List ConfigVersion
deriving DecidableEq

namespace Service

/-- `ConfigService.CreateConfig`: request-structure checks
(`CreateConfigRequest.Validate`), then `HasSchema`, then schema validation,
then `Repo.create`. -/
def createConfig (v : Validator) (s : Store) (now : Nat) (req : CreateConfigRequest) :
    Except ConfigError Config × Store :=
  if req.name = "" then (.error (.validation "name" "name is required"), s)
  else if req.type = "" then (.error (.validation "type" "type is required"), s)
  else match req.data with
  | none => (.error (.validation "data" "data is required"), s)
  | some data =>
      if v.hasSchema req.type then
        match v.validate req.type data with
        | some msg => (.error (.schemaValidation msg), s)
        | none => Repo.create s now req.name req.type data
      else (.error (.validation "type" ("unknown config type: " ++ req.type)), s)

/-- `ConfigService.GetConfig`: empty-name check; with a requested version,
fetch that revision and the latest record and compose the response from the
two; otherwise return the latest record. -/
def getConfig (s : Store) (name : String) (version : Option Int) :
    Except ConfigError Config :=
  if name = "" then .error (.validation "name" "name is required")
  else match version with
  | some ver =>
      match Repo.getVersion s name ver with
      | .error e => .error e
      | .ok rev =>
          match Repo.get s name with
          | .error e => .error e
          | .ok cfg => .ok ⟨name, cfg.type, rev.version, rev.data, cfg.createdAt, rev.createdAt⟩
  | none => Repo.get s name

/-- `ConfigService.UpdateConfig`: empty-name check, request check
(`UpdateConfigRequest.Validate`), fetch the existing record for its type,
validate the new data against that type's schema, then `Repo.update`. -/
def updateConfig (v : Validator) (s : Store) (now : Nat) (name : String)
    (req : UpdateConfigRequest) : Except ConfigError Config × Store :=
  if name = "" then (.error (.validation "name" "name is required"), s)
  else match req.data with
  | none => (.error (.validation "data" "data is required"), s)
  | some data =>
      match Repo.get s name with
      | .error e => (.error e, s)
      | .ok existing =>
          match v.validate existing.type data with
          | some msg => (.error (.schemaValidation msg), s)
          | none => Repo.update s now name existing.type data

/-- `ConfigService.RollbackConfig`: empty-name check, request check
(`RollbackRequest.Validate`: version ≥ 1), fetch the target revision, fetch
the current record for its type, re-validate the historical data against the
currently registered schema, then `Repo.update` with the historical data. -/
def rollbackConfig (v : Validator) (s : Store) (now : Nat) (name : String)
    (req : RollbackRequest) : Except ConfigError Config × Store :=
  if name = "" then (.error (.validation "name" "name is required"), s)
  else if req.version < 1 then (.error (.validation "version" "version must be >= 1"), s)
  else match Repo.getVersion s name req.version with
  | .error e => (.error e, s)
  | .ok target =>
      match Repo.get s name with
      | .error e => (.error e, s)
      | .ok current =>
          match v.validate current.type target.data with
          | some msg =>
              (.error (.schemaValidation
                ("target version data is incompatible with current schema: " ++ msg)), s)
          | none => Repo.update s now name current.type target.data

/-- `ConfigService.ListVersions`: empty-name check, then wrap
`Repo.listVersions` in a `VersionsResponse`. -/
def listVersions (s : Store) (name : String) : Except ConfigError VersionsResponse :=
  if name = "" then .error (.validation "name" "name is required")
  else match Repo.listVersions s name with
  | .error e => .error e
  | .ok vs => .ok ⟨name, vs⟩

end Service

/-! ## Association-list lemmas -/

theorem alookup_upsert_self {α : Type} (l : List (String × α)) (k : String) (v : α) :
    alookup (upsert l k v) k = some v := by
  induction l with
  | nil => simp [alookup, upsert]
  | cons hd tl ih =>
      obtain ⟨k', w⟩ := hd
      by_cases h : k' = k
      · simp [upsert, h, alookup]
      · simp [upsert, h, alookup, ih]

theorem alookup_upsert_ne {α : Type} (l : List (String × α)) (k k' : String) (v : α)
    (h : k' ≠ k) : alookup (upsert l k v) k' = alookup l k' := by
  have h3 : ¬(k = k') := fun hh => h hh.symm
  induction l with
  | nil => simp [alookup, upsert, h3]
  | cons hd tl ih =>
      obtain ⟨k'', w⟩ := hd
      by_cases h2 : k'' = k
      · subst h2
        simp [upsert, alookup, h3]
      · by_cases h4 : k'' = k'
        · simp [upsert, alookup, h2, h4, h]
        · simp [upsert, alookup, h2, h4, ih]

/-! ## The store invariant

The shape of every state the repository can be driven into through the
service: the two maps have the same key set, a present version list is the
contiguous sequence 1..N with N the stored record's current version, and the
record's creation timestamp is the version-1 snapshot's creation
timestamp. -/

structure Inv (s : Store) : Prop where
  keys : ∀ n, (alookup s.configs n).isSome = (alookup s.versions n).isSome
  length_eq : ∀ n c vs, alookup s.configs n = some c → alookup s.versions n = some vs →
      c.version = vs.length
  numbering : ∀ n vs, alookup s.versions n = some vs →
      ∀ i (h : i < vs.length), (vs.get ⟨i, h⟩).version = i + 1
  nonempty : ∀ n vs, alookup s.versions n = some vs → vs ≠ []
  createdAt_first : ∀ n c vs, alookup s.configs n = some c →
      alookup s.versions n = some vs → ∀ hne : vs ≠ [],
      c.createdAt = (vs.head hne).createdAt

theorem inv_empty : Inv Store.empty := by
  constructor <;> intro n <;> simp [Store.empty, alookup]

theorem inv_configs_isSome {s : Store} (hs : Inv s) {n : String} {c : Config}
    (h : alookup s.configs n = some c) : ∃ vs, alookup s.versions n = some vs := by
  have := hs.keys n
  rw [h] at this
  cases hv : alookup s.versions n with
  | none => rw [hv] at this; simp at this
  | some vs => exact ⟨vs, rfl⟩

theorem inv_versions_isSome {s : Store} (hs : Inv s) {n : String} {vs : List ConfigVersion}
    (h : alookup s.versions n = some vs) : ∃ c, alookup s.configs n = some c := by
  have := hs.keys n
  rw [h] at this
  cases hv : alookup s.configs n with
  | none => rw [hv] at this; simp at this
  | some c => exact ⟨c, rfl⟩

theorem repo_create_inv {s : Store} (hs : Inv s) (now : Nat) (name ty : String)
    (data : JsonObj) : Inv (Repo.create s now name ty data).2 := by
  unfold Repo.create
  cases h : alookup s.configs name with
  | some c => exact hs
  | none =>
      simp only []
      constructor
      · intro n
        by_cases hn : n = name
        · subst hn; simp [alookup_upsert_self]
        · simp [alookup_upsert_ne _ _ _ _ hn, hs.keys n]
      · intro n c vs hc hv
        by_cases hn : n = name
        · subst hn
          rw [alookup_upsert_self] at hc hv
          cases hc; cases hv; rfl
        · rw [alookup_upsert_ne _ _ _ _ hn] at hc hv
          exact hs.length_eq n c vs hc hv
      · intro n vs hv i hi
        by_cases hn : n = name
        · subst hn
          rw [alookup_upsert_self] at hv
          cases hv
          have hi0 : i = 0 := by simpa using hi
          subst hi0
          rfl
        · rw [alookup_upsert_ne _ _ _ _ hn] at hv
          exact hs.numbering n vs hv i hi
      · intro n vs hv
        by_cases hn : n = name
        · subst hn
          rw [alookup_upsert_self] at hv
          cases hv; simp
        · rw [alookup_upsert_ne _ _ _ _ hn] at hv
          exact hs.nonempty n vs hv
      · intro n c vs hc hv hne
        by_cases hn : n = name
        · subst hn
          rw [alookup_upsert_self] at hc hv
          cases hc; cases hv; rfl
        · rw [alookup_upsert_ne _ _ _ _ hn] at hc hv
          exact hs.createdAt_first n c vs hc hv hne

theorem repo_update_inv {s : Store} (hs : Inv s) (now : Nat) (name ty : String)
    (data : JsonObj) : Inv (Repo.update s now name ty data).2 := by
  unfold Repo.update
  cases h : alookup s.configs name with
  | none => exact hs
  | some existing =>
      obtain ⟨vs0, hvs0⟩ := inv_configs_isSome hs h
      have hlen : existing.version = vs0.length := hs.length_eq name existing vs0 h hvs0
      simp only [hvs0, Option.getD_some]
      constructor
      · intro n
        by_cases hn : n = name
        · subst hn; simp [alookup_upsert_self]
        · simp [alookup_upsert_ne _ _ _ _ hn, hs.keys n]
      · intro n c vs hc hv
        by_cases hn : n = name
        · subst hn
          rw [alookup_upsert_self] at hc hv
          cases hc; cases hv
          simp [hlen]
        · rw [alookup_upsert_ne _ _ _ _ hn] at hc hv
          exact hs.length_eq n c vs hc hv
      · intro n vs hv i hi
        by_cases hn : n = name
        · subst hn
          rw [alookup_upsert_self] at hv
          cases hv
          rcases Nat.lt_or_ge i vs0.length with hlt | hge
          · rw [List.get_append _ hlt]
            exact hs.numbering n vs0 hvs0 i hlt
          · have hil : i = vs0.length := by
              simp at hi
              omega
            subst hil
            simp [hlen]
        · rw [alookup_upsert_ne _ _ _ _ hn] at hv
          exact hs.numbering n vs hv i hi
      · intro n vs hv
        by_cases hn : n = name
        · subst hn
          rw [alookup_upsert_self] at hv
          cases hv; simp
        · rw [alookup_upsert_ne _ _ _ _ hn] at hv
          exact hs.nonempty n vs hv
      · intro n c vs hc hv hne
        by_cases hn : n = name
        · subst hn
          rw [alookup_upsert_self] at hc hv
          cases hc; cases hv
          have hne0 : vs0 ≠ [] := hs.nonempty n vs0 hvs0
          rw [List.head_append_of_ne_nil hne0]
          exact hs.createdAt_first n existing vs0 h hvs0 hne0
        · rw [alookup_upsert_ne _ _ _ _ hn] at hc hv
          exact hs.createdAt_first n c vs hc hv hne

theorem service_create_inv {v : Validator} {s : Store} (hs : Inv s) (now : Nat)
    (req : CreateConfigRequest) : Inv (Service.createConfig v s now req).2 := by
  unfold Service.createConfig
  split
  · exact hs
  · split
    · exact hs
    · split
      · exact hs
      · split
        · split
          · exact hs
          · exact repo_create_inv hs now _ _ _
        · exact hs

theorem service_update_inv {v : Validator} {s : Store} (hs : Inv s) (now : Nat)
    (name : String) (req : UpdateConfigRequest) :
    Inv (Service.updateConfig v s now name req).2 := by
  unfold Service.updateConfig
  split
  · exact hs
  · split
    · exact hs
    · split
      · exact hs
      · split
        · exact hs
        · exact repo_update_inv hs now _ _ _

theorem service_rollback_inv {v : Validator} {s : Store} (hs : Inv s) (now : Nat)
    (name : String) (req : RollbackRequest) :
    Inv (Service.rollbackConfig v s now name req).2 := by
  unfold Service.rollbackConfig
  split
  · exact hs
  · split
    · exact hs
    · split
      · exact hs
      · split
        · exact hs
        · split
          · exact hs
          · exact repo_update_inv hs now _ _ _

/-- The states reachable from the empty store through the service's mutating
operations (each call's resulting store, whether the call succeeded or
failed). -/
inductive Reach (v : Validator) : Store → Prop where
  | empty : Reach v Store.empty
  | create (s : Store) (now : Nat) (req : CreateConfigRequest) :
      Reach v s → Reach v (Service.createConfig v s now req).2
  | update (s : Store) (now : Nat) (name : String) (req : UpdateConfigRequest) :
      Reach v s → Reach v (Service.updateConfig v s now name req).2
  | rollback (s : Store) (now : Nat) (name : String) (req : RollbackRequest) :
      Reach v s → Reach v (Service.rollbackConfig v s now name req).2

theorem reach_inv {v : Validator} {s : Store} (h : Reach v s) : Inv s := by
  induction h with
  | empty => exact inv_empty
  | create s now req _ ih => exact service_create_inv ih now req
  | update s now name req _ ih => exact service_update_inv ih now name req
  | rollback s now name req _ ih => exact service_rollback_inv ih now name req

/-! ## Computation lemmas for the repository operations -/

theorem config_copy_eq (c : Config) : ({ c with data := copyData c.data } : Config) = c := by
  cases c; simp [copyData_eq]

theorem configVersion_copy_eq (v : ConfigVersion) :
    ({ v with data := copyData v.data } : ConfigVersion) = v := by
  cases v; simp [copyData_eq]

theorem repo_get_eq {s : Store} {name : String} {cfg : Config}
    (h : alookup s.configs name = some cfg) : Repo.get s name = .ok cfg := by
  simp [Repo.get, h, config_copy_eq]

theorem repo_getVersion_eq {s : Store} {name : String} {vs : List ConfigVersion}
    (h : alookup s.versions name = some vs) (k : Int) (hk1 : 1 ≤ k)
    (hk2 : k ≤ (vs.length : Int)) :
    Repo.getVersion s name k = .ok (vs.get ⟨(k - 1).toNat, by omega⟩) := by
  have hcond : ¬(k < 1 ∨ (vs.length : Int) < k) := by omega
  simp [Repo.getVersion, h, hcond, configVersion_copy_eq]

theorem repo_update_eq {s : Store} {name : String} {cfg : Config}
    (h : alookup s.configs name = some cfg) (now : Nat) (ty : String) (data : JsonObj) :
    Repo.update s now name ty data =
      (.ok ⟨name, ty, cfg.version + 1, data, cfg.createdAt, now⟩,
       ⟨upsert s.configs name ⟨name, ty, cfg.version + 1, data, cfg.createdAt, now⟩,
        upsert s.versions name
          ((alookup s.versions name).getD [] ++ [⟨cfg.version + 1, copyData data, now⟩])⟩) := by
  simp [Repo.update, h]

theorem map_copy_versions_eq (vs : List ConfigVersion) :
    (vs.map fun v => { v with data := copyData v.data }) = vs := by
  induction vs with
  | nil => rfl
  | cons hd tl ih => simp [configVersion_copy_eq, ih]

theorem repo_listVersions_eq {s : Store} {name : String} {vs : List ConfigVersion}
    (h : alookup s.versions name = some vs) : Repo.listVersions s name = .ok vs := by
  simp [Repo.listVersions, h, map_copy_versions_eq]

def exceptDecEq {α β : Type} [DecidableEq α] [DecidableEq β] :
    (a b : Except α β) → Decidable (a = b)
  | .error a, .error b =>
      match decEq a b with
      | isTrue h => isTrue (by rw [h])
      | isFalse h => isFalse (fun hh => h (Except.error.inj hh))
  | .ok a, .ok b =>
      match decEq a b with
      | isTrue h => isTrue (by rw [h])
      | isFalse h => isFalse (fun hh => h (Except.ok.inj hh))
  | .error _, .ok _ => isFalse (fun h => Except.noConfusion h)
  | .ok _, .error _ => isFalse (fun h => Except.noConfusion h)

instance {α β : Type} [DecidableEq α] [DecidableEq β] : DecidableEq (Except α β) :=
  exceptDecEq

/-! ## Concrete fixtures

Documents from the spec's examples and a store obtained by actually running
`CreateConfig` on the empty store; used to instantiate the claim theorems at
concrete inputs. -/

def paymentDoc : JsonObj := .cons "max_limit" (.int 1000) (.cons "enabled" (.bool true) .nil)

def paymentDoc2 : JsonObj := .cons "max_limit" (.int 2000) (.cons "enabled" (.bool false) .nil)

def badTypeDoc : JsonObj := .cons "max_limit" (.str "x") (.cons "enabled" (.bool true) .nil)

def missingFieldDoc : JsonObj := .cons "max_limit" (.int 1000) .nil

def extraFieldDoc : JsonObj :=
  .cons "max_limit" (.int 1000) (.cons "enabled" (.bool true) (.cons "extra" (.int 1) .nil))

def createReq : CreateConfigRequest := ⟨"app", "payment_config", some paymentDoc⟩

/-- The store after `CreateConfig("app", "payment_config", paymentDoc)` at
time 0 on the empty store. -/
def store1 : Store := (Service.createConfig newValidator Store.empty 0 createReq).2

theorem reach_store1 : Reach newValidator store1 :=
  Reach.create Store.empty 0 createReq Reach.empty

/-- A store holding a configuration whose historical (and only) revision no
longer satisfies the `payment_config` schema; used to exercise rollback's
re-validation error path. -/
def badStore : Store :=
  ⟨[("app", ⟨"app", "payment_config", 1, badTypeDoc, 0, 0⟩)],
   [("app", [⟨1, badTypeDoc, 0⟩])]⟩

/-! ## Claim theorems -/

/-- C8: the pre-registered `payment_config` schema accepts
`{max_limit: 1000, enabled: true}` and rejects a wrongly-typed `max_limit`,
a document missing the required `enabled` field, and a document carrying an
additional property. -/
theorem payment_config_examples :
    newValidator.validate "payment_config" paymentDoc = none ∧
    (newValidator.validate "payment_config" badTypeDoc).isSome = true ∧
    (newValidator.validate "payment_config" missingFieldDoc).isSome = true ∧
    (newValidator.validate "payment_config" extraFieldDoc).isSome = true := by
  decide

/-- C10: every service operation taking a configuration name rejects the
empty name with a `ValidationError` for field "name", leaving any store
unchanged and never depending on its contents. -/
theorem empty_name_validation (v : Validator) (s : Store) (now : Nat)
    (version : Option Int) (requ : UpdateConfigRequest) (reqr : RollbackRequest) :
    Service.getConfig s "" version = .error (.validation "name" "name is required") ∧
    Service.updateConfig v s now "" requ = (.error (.validation "name" "name is required"), s) ∧
    Service.rollbackConfig v s now "" reqr =
      (.error (.validation "name" "name is required"), s) ∧
    Service.listVersions s "" = .error (.validation "name" "name is required") := by
  refine ⟨?_, ?_, ?_, ?_⟩ <;>
    simp [Service.getConfig, Service.updateConfig, Service.rollbackConfig, Service.listVersions]

/-- C4: `GetConfig(name, v)` for a valid historical version composes its
response from revision `v` (version, data, and update timestamp — the
latter being the revision's creation timestamp) and from the latest stored
record (type and creation timestamp). -/
theorem getConfig_composes_revision_and_latest (s : Store) (name : String)
    (cfg : Config) (vs : List ConfigVersion) (ver : Int)
    (hs : Inv s) (hname : name ≠ "")
    (hc : alookup s.configs name = some cfg)
    (hv : alookup s.versions name = some vs)
    (hk1 : 1 ≤ ver) (hk2 : ver ≤ cfg.version) :
    Service.getConfig s name (some ver) =
      (let rev := vs.get ⟨(ver - 1).toNat,
        by have := hs.length_eq name cfg vs hc hv; omega⟩
       .ok ⟨name, cfg.type, rev.version, rev.data, cfg.createdAt, rev.createdAt⟩) := by
  have hlen := hs.length_eq name cfg vs hc hv
  have hk2' : ver ≤ (vs.length : Int) := by omega
  simp [Service.getConfig, hname, repo_getVersion_eq hv ver hk1 hk2', repo_get_eq hc]

theorem getConfig_composes_witness :
    Service.getConfig store1 "app" (some 1) =
      .ok ⟨"app", "payment_config", 1, paymentDoc, 0, 0⟩ := by
  have h := getConfig_composes_revision_and_latest store1 "app"
    ⟨"app", "payment_config", 1, paymentDoc, 0, 0⟩ [⟨1, paymentDoc, 0⟩] 1
    (reach_inv reach_store1) (by decide) (by decide) (by decide) (by decide) (by decide)
  exact h

/-- C6: on any store satisfying the reachable-state invariant, `Create` on a
name that already has revisions fails with `ConfigAlreadyExists`; `Update`,
`Rollback`, `GetVersion` and `ListVersions` on a name with no revisions fail
with `ConfigNotFound`; `GetVersion` with version < 1 or version above the
highest revision number fails with `VersionNotFound`; every such failure
leaves the store unchanged. -/
theorem store_error_paths (v : Validator) (s : Store) (hs : Inv s) :
    (∀ (now : Nat) (name ty : String) (data : JsonObj) (vs : List ConfigVersion),
        alookup s.versions name = some vs →
        Repo.create s now name ty data = (.error (.configExists name), s)) ∧
    (∀ (now : Nat) (name ty : String) (data : JsonObj),
        alookup s.versions name = none →
        Repo.update s now name ty data = (.error (.configNotFound name), s)) ∧
    (∀ (now : Nat) (name : String) (k : Int), name ≠ "" → 1 ≤ k →
        alookup s.versions name = none →
        Service.rollbackConfig v s now name ⟨k⟩ = (.error (.configNotFound name), s)) ∧
    (∀ (name : String) (k : Int), alookup s.versions name = none →
        Repo.getVersion s name k = .error (.configNotFound name)) ∧
    (∀ (name : String) (k : Int) (vs : List ConfigVersion),
        alookup s.versions name = some vs → (k < 1 ∨ (vs.length : Int) < k) →
        Repo.getVersion s name k = .error (.versionNotFound name k)) ∧
    (∀ name : String, alookup s.versions name = none →
        Repo.listVersions s name = .error (.configNotFound name)) := by
  refine ⟨?_, ?_, ?_, ?_, ?_, ?_⟩
  · intro now name ty data vs hv
    obtain ⟨c, hc⟩ := inv_versions_isSome hs hv
    simp [Repo.create, hc]
  · intro now name ty data hv
    have hk := hs.keys name
    rw [hv] at hk
    cases hc : alookup s.configs name with
    | some c => rw [hc] at hk; simp at hk
    | none => simp [Repo.update, hc]
  · intro now name k hname hk hv
    have hknot : ¬k < 1 := by omega
    simp [Service.rollbackConfig, hname, hknot, Repo.getVersion, hv]
  · intro name k hv
    simp [Repo.getVersion, hv]
  · intro name k vs hv hrange
    simp [Repo.getVersion, hv, hrange]
  · intro name hv
    simp [Repo.listVersions, hv]

theorem store_error_paths_witness :
    Repo.create store1 5 "app" "payment_config" paymentDoc2 =
      (.error (.configExists "app"), store1) ∧
    Repo.update store1 5 "ghost" "payment_config" paymentDoc2 =
      (.error (.configNotFound "ghost"), store1) ∧
    Service.rollbackConfig newValidator store1 5 "ghost" ⟨1⟩ =
      (.error (.configNotFound "ghost"), store1) ∧
    Repo.getVersion store1 "ghost" 1 = .error (.configNotFound "ghost") ∧
    Repo.getVersion store1 "app" 0 = .error (.versionNotFound "app" 0) ∧
    Repo.getVersion store1 "app" 2 = .error (.versionNotFound "app" 2) ∧
    Repo.listVersions store1 "ghost" = .error (.configNotFound "ghost") := by
  have h := store_error_paths newValidator store1 (reach_inv reach_store1)
  exact ⟨h.1 5 "app" "payment_config" paymentDoc2 [⟨1, paymentDoc, 0⟩] (by decide),
         h.2.1 5 "ghost" "payment_config" paymentDoc2 (by decide),
         h.2.2.1 5 "ghost" 1 (by decide) (by decide) (by decide),
         h.2.2.2.1 "ghost" 1 (by decide),
         h.2.2.2.2.1 "app" 0 [⟨1, paymentDoc, 0⟩] (by decide) (by decide),
         h.2.2.2.2.1 "app" 2 [⟨1, paymentDoc, 0⟩] (by decide) (by decide),
         h.2.2.2.2.2 "ghost" (by decide)⟩

/-- C7: when rollback's target revision exists but its historical data fails
validation against the schema currently registered for the configuration's
type, `RollbackConfig` returns a `SchemaValidationError` describing the
incompatibility and the store is unchanged (no revision is appended). -/
theorem rollback_revalidation_failure (v : Validator) (s : Store) (now : Nat)
    (name : String) (k : Int) (target : ConfigVersion) (cur : Config) (msg : String)
    (hname : name ≠ "") (hk : 1 ≤ k)
    (hgv : Repo.getVersion s name k = .ok target)
    (hget : Repo.get s name = .ok cur)
    (hval : v.validate cur.type target.data = some msg) :
    Service.rollbackConfig v s now name ⟨k⟩ =
      (.error (.schemaValidation
        ("target version data is incompatible with current schema: " ++ msg)), s) := by
  have hknot : ¬k < 1 := by omega
  simp [Service.rollbackConfig, hname, hknot, hgv, hget, hval]

/-- C1: a successful `RollbackConfig(name, k)` for a valid historical
version `k` leaves every previously existing revision in place and
unchanged, appends exactly one new revision whose data equals revision `k`'s
data, and touches no other name's history. -/
theorem rollback_preserves_history (v : Validator) (s : Store) (now : Nat)
    (name : String) (k : Int) (cfg : Config) (vs : List ConfigVersion)
    (c : Config) (s' : Store)
    (hs : Inv s)
    (hc : alookup s.configs name = some cfg)
    (hv : alookup s.versions name = some vs)
    (hk1 : 1 ≤ k) (hk2 : k ≤ cfg.version)
    (hsucc : Service.rollbackConfig v s now name ⟨k⟩ = (.ok c, s')) :
    ∃ rev : ConfigVersion,
      alookup s'.versions name = some (vs ++ [rev]) ∧
      rev.data = (vs.get ⟨(k - 1).toNat,
        by have := hs.length_eq name cfg vs hc hv; omega⟩).data ∧
      ∀ m, m ≠ name → alookup s'.versions m = alookup s.versions m := by
  have hlen := hs.length_eq name cfg vs hc hv
  have hk2' : k ≤ (vs.length : Int) := by omega
  have hknot : ¬k < 1 := by omega
  have hidx : (k - 1).toNat < vs.length := by omega
  by_cases hname : name = ""
  · simp [Service.rollbackConfig, hname] at hsucc
  · simp only [Service.rollbackConfig, if_neg hname, hknot, if_false,
      repo_getVersion_eq hv k hk1 hk2', repo_get_eq hc] at hsucc
    cases hval : v.validate cfg.type ((vs.get ⟨(k - 1).toNat, hidx⟩).data) with
    | some msg => rw [hval] at hsucc; simp at hsucc
    | none =>
        rw [hval, repo_update_eq hc now cfg.type ((vs.get ⟨(k - 1).toNat, hidx⟩).data)]
          at hsucc
        simp only [Prod.mk.injEq, Except.ok.injEq] at hsucc
        obtain ⟨hceq, hs'⟩ := hsucc
        subst hs'
        refine ⟨⟨cfg.version + 1, (vs.get ⟨(k - 1).toNat, hidx⟩).data, now⟩, ?_, rfl, ?_⟩
        · rw [hv]
          simp [copyData_eq, alookup_upsert_self]
        · intro m hm
          exact alookup_upsert_ne _ _ _ _ hm

/-- The store after rolling back `store1` to version 1 at time 9. -/
def store1Rollback : Store := (Service.rollbackConfig newValidator store1 9 "app" ⟨1⟩).2

theorem rollback_preserves_history_witness :
    ∃ rev : ConfigVersion,
      alookup store1Rollback.versions "app" = some ([⟨1, paymentDoc, 0⟩] ++ [rev]) ∧
      rev.data = paymentDoc ∧
      ∀ m, m ≠ "app" → alookup store1Rollback.versions m = alookup store1.versions m := by
  have h := rollback_preserves_history newValidator store1 9 "app" 1
    ⟨"app", "payment_config", 1, paymentDoc, 0, 0⟩ [⟨1, paymentDoc, 0⟩]
    ⟨"app", "payment_config", 2, paymentDoc, 0, 9⟩ store1Rollback
    (reach_inv reach_store1) (by decide) (by decide) (by decide) (by decide) (by decide)
  exact h

/-- C5: a successful `Update(name, data)` on a configuration at current
version `v` appends the revision `v + 1` carrying the given data, and the
returned Configuration has version `v + 1`, the given data, the unchanged
type, the creation timestamp of version 1, and the refreshed update
timestamp. -/
theorem updateConfig_appends_next_version (v : Validator) (s : Store) (now : Nat)
    (name : String) (data : JsonObj) (cfg : Config) (vs : List ConfigVersion)
    (c : Config) (s' : Store)
    (hs : Inv s)
    (hc : alookup s.configs name = some cfg)
    (hv : alookup s.versions name = some vs)
    (hsucc : Service.updateConfig v s now name ⟨some data⟩ = (.ok c, s')) :
    alookup s'.versions name = some (vs ++ [⟨cfg.version + 1, data, now⟩]) ∧
    c = ⟨name, cfg.type, cfg.version + 1, data, cfg.createdAt, now⟩ ∧
    (∃ hne : vs ≠ [], (vs.head hne).version = 1 ∧ c.createdAt = (vs.head hne).createdAt) ∧
    ∀ m, m ≠ name → alookup s'.versions m = alookup s.versions m := by
  by_cases hname : name = ""
  · simp [Service.updateConfig, hname] at hsucc
  · simp only [Service.updateConfig, if_neg hname, repo_get_eq hc] at hsucc
    cases hval : v.validate cfg.type data with
    | some msg => rw [hval] at hsucc; simp at hsucc
    | none =>
        rw [hval, repo_update_eq hc now cfg.type data] at hsucc
        simp only [Prod.mk.injEq, Except.ok.injEq] at hsucc
        obtain ⟨hceq, hs'⟩ := hsucc
        subst hs'
        have hne : vs ≠ [] := hs.nonempty name vs hv
        have hpos : 0 < vs.length := List.length_pos.mpr hne
        have hhead : (vs.head hne).version = 1 := by
          have h1 := hs.numbering name vs hv 0 hpos
          rw [List.head_eq_getElem_zero hne]
          rw [List.get_eq_getElem] at h1
          simpa using h1
        refine ⟨?_, hceq.symm, ⟨hne, hhead, ?_⟩, ?_⟩
        · rw [hv]
          simp [copyData_eq, alookup_upsert_self]
        · rw [← hceq]
          exact hs.createdAt_first name cfg vs hc hv hne
        · intro m hm
          exact alookup_upsert_ne _ _ _ _ hm

/-- The store after updating `store1` with a second document at time 7. -/
def store1Updated : Store :=
  (Service.updateConfig newValidator store1 7 "app" ⟨some paymentDoc2⟩).2

theorem updateConfig_appends_witness :
    alookup store1Updated.versions "app" =
      some ([⟨1, paymentDoc, 0⟩] ++ [⟨2, paymentDoc2, 7⟩]) ∧
    (⟨"app", "payment_config", 2, paymentDoc2, 0, 7⟩ : Config) =
      ⟨"app", "payment_config", 2, paymentDoc2, 0, 7⟩ ∧
    (∃ hne : ([⟨1, paymentDoc, 0⟩] : List ConfigVersion) ≠ [],
      (([⟨1, paymentDoc, 0⟩] : List ConfigVersion).head hne).version = 1 ∧
      (0 : Nat) = (([⟨1, paymentDoc, 0⟩] : List ConfigVersion).head hne).createdAt) ∧
    ∀ m, m ≠ "app" → alookup store1Updated.versions m = alookup store1.versions m := by
  have h := updateConfig_appends_next_version newValidator store1 7 "app" paymentDoc2
    ⟨"app", "payment_config", 1, paymentDoc, 0, 0⟩ [⟨1, paymentDoc, 0⟩]
    ⟨"app", "payment_config", 2, paymentDoc2, 0, 7⟩ store1Updated
    (reach_inv reach_store1) (by decide) (by decide) (by decide)
  exact h

/-- C9: rolling back to the current (latest) version itself succeeds —
`GetVersion`'s upper bound admits `version = current` — and appends a new
revision `current + 1` duplicating the current revision's data. -/
theorem rollback_to_current_version_succeeds (v : Validator) (s : Store) (now : Nat)
    (name : String) (cfg : Config) (vs : List ConfigVersion)
    (hs : Inv s) (hname : name ≠ "")
    (hc : alookup s.configs name = some cfg)
    (hv : alookup s.versions name = some vs)
    (hidx : (cfg.version - 1).toNat < vs.length)
    (hval : v.validate cfg.type ((vs.get ⟨(cfg.version - 1).toNat, hidx⟩).data) = none) :
    Service.rollbackConfig v s now name ⟨cfg.version⟩ =
      (.ok ⟨name, cfg.type, cfg.version + 1,
            (vs.get ⟨(cfg.version - 1).toNat, hidx⟩).data, cfg.createdAt, now⟩,
       ⟨upsert s.configs name
          ⟨name, cfg.type, cfg.version + 1,
           (vs.get ⟨(cfg.version - 1).toNat, hidx⟩).data, cfg.createdAt, now⟩,
        upsert s.versions name
          (vs ++ [⟨cfg.version + 1, (vs.get ⟨(cfg.version - 1).toNat, hidx⟩).data, now⟩])⟩) := by
  have hlen := hs.length_eq name cfg vs hc hv
  have hne := hs.nonempty name vs hv
  have hpos : 0 < vs.length := List.length_pos.mpr hne
  have hk1 : 1 ≤ cfg.version := by omega
  have hk2' : cfg.version ≤ (vs.length : Int) := by omega
  have hknot : ¬cfg.version < 1 := by omega
  simp only [Service.rollbackConfig, if_neg hname, hknot, if_false,
    repo_getVersion_eq hv cfg.version hk1 hk2', repo_get_eq hc, hval,
    repo_update_eq hc, hv, Option.getD_some, copyData_eq]

theorem rollback_to_current_witness :
    Service.rollbackConfig newValidator store1 9 "app" ⟨1⟩ =
      (.ok ⟨"app", "payment_config", 2, paymentDoc, 0, 9⟩,
       ⟨[("app", ⟨"app", "payment_config", 2, paymentDoc, 0, 9⟩)],
        [("app", [⟨1, paymentDoc, 0⟩, ⟨2, paymentDoc, 9⟩])]⟩) := by
  have h := rollback_to_current_version_succeeds newValidator store1 9 "app"
    ⟨"app", "payment_config", 1, paymentDoc, 0, 0⟩ [⟨1, paymentDoc, 0⟩]
    (reach_inv reach_store1) (by decide) (by decide) (by decide) (by decide) (by decide)
  rw [h]
  decide

/-- C2: in every store reachable through the service's operations, a name's
revision sequence is numbered exactly 1, 2, …, N with no gaps, its length N
equals the stored record's current version, and `ListVersions` returns
exactly those revisions, whose version numbers are strictly ascending. -/
theorem reachable_version_sequence (v : Validator) (s : Store) (h : Reach v s)
    (name : String) (vs : List ConfigVersion)
    (hv : alookup s.versions name = some vs) :
    (∀ i (hi : i < vs.length), (vs.get ⟨i, hi⟩).version = i + 1) ∧
    (∃ c, alookup s.configs name = some c ∧ c.version = (vs.length : Int)) ∧
    Repo.listVersions s name = .ok vs ∧
    (vs.map ConfigVersion.version).Pairwise (· < ·) := by
  have hs := reach_inv h
  have hnum := hs.numbering name vs hv
  refine ⟨hnum, ?_, repo_listVersions_eq hv, ?_⟩
  · obtain ⟨c, hc⟩ := inv_versions_isSome hs hv
    exact ⟨c, hc, hs.length_eq name c vs hc hv⟩
  · rw [List.pairwise_map]
    rw [List.pairwise_iff_get]
    intro i j hij
    rw [hnum i.1 i.2, hnum j.1 j.2]
    have : i.1 < j.1 := hij
    omega

theorem reachable_version_sequence_witness :
    Repo.listVersions store1 "app" = .ok [⟨1, paymentDoc, 0⟩] ∧
    (([⟨1, paymentDoc, 0⟩] : List ConfigVersion).map ConfigVersion.version).Pairwise
      (· < ·) ∧
    ∃ c, alookup store1.configs "app" = some c ∧ c.version = 1 := by
  have h := reachable_version_sequence newValidator store1 reach_store1 "app"
    [⟨1, paymentDoc, 0⟩] (by decide)
  exact ⟨h.2.2.1, h.2.2.2, h.2.1⟩

theorem rollback_revalidation_witness :
    Service.rollbackConfig newValidator badStore 5 "app" ⟨1⟩ =
      (.error (.schemaValidation
        ("target version data is incompatible with current schema: " ++
          "max_limit: invalid type")), badStore) :=
  rollback_revalidation_failure newValidator badStore 5 "app" 1
    ⟨1, badTypeDoc, 0⟩ ⟨"app", "payment_config", 1, badTypeDoc, 0, 0⟩
    "max_limit: invalid type"
    (by decide) (by decide) (by decide) (by decide) (by decide)

/-! ## Address-carrying model of the repository's document aliasing

Go maps are references into the heap.  To reason about the reference
structure of `InMemoryRepository`, this second model of the repository tags
every map and slice node of a document with its heap address: two trees
sharing an address alias the same heap object, and a heap write at an
address is applied to every tree holding that address.  `copyData`
(`acopyVal`/`acopyFields` below) allocates fresh addresses for the map nodes
it rebuilds — exactly the Go function's allocation behavior, with the
runtime allocator made explicit as a counter — while everything copied by
plain assignment (scalars, slices) keeps its nodes.  `Create` is embedded
exactly as written in `repository.go`: the caller's `*Config`, including its
`Data` map reference, is stored in `r.configs`, and only the version
snapshot receives a `copyData` copy. -/

mutual
inductive AVal where
  | null
  | bool (b : Bool)
  | int (n : Int)
  | float (lit : String)
  | str (s : String)
  | arr (addr : Nat) (elems : AArr)
  | obj (addr : Nat) (fields : AObj)

inductive AArr where
  | nil
  | cons (v : AVal) (rest : AArr)

inductive AObj where
  | nil
  | cons (k : String) (v : AVal) (rest : AObj)
end

mutual
/-- `repository.go copyData` on an address-tagged document: rebuilding a map
allocates a fresh heap address for it. -/
def acopyVal (c : Nat) : AVal → AVal × Nat
  | .obj _ fs =>
      let r := acopyFields (c + 1) fs
      (.obj c r.1, r.2)
  | v => (v, c)

/-- The loop body of `copyData`: a value that is itself a map is recursively
copied; every other value (scalars, arrays) is assigned as-is, keeping its
heap nodes. -/
def acopyFields (c : Nat) : AObj → AObj × Nat
  | .nil => (.nil, c)
  | .cons k v rest =>
      match v with
      | .obj _ _ =>
          let r := acopyVal c v
          let r2 := acopyFields r.2 rest
          (.cons k r.1 r2.1, r2.2)
      | _ =>
          let r2 := acopyFields c rest
          (.cons k v r2.1, r2.2)
end

/-- The effect of the Go map assignment `m[key] = nv` on one map object's
field list. -/
def setKeyA (key : String) (nv : AVal) : AObj → AObj
  | .nil => .cons key nv .nil
  | .cons k v rest => if k = key then .cons k nv rest else .cons k v (setKeyA key nv rest)

mutual
/-- Apply the heap write `heap[a][key] = nv` to a document tree: every map
node carrying address `a` (an alias of the written object) receives the
assignment. -/
def mutateVal (a : Nat) (key : String) (nv : AVal) : AVal → AVal
  | .obj a' fs =>
      if a' = a then .obj a' (setKeyA key nv (mutateObj a key nv fs))
      else .obj a' (mutateObj a key nv fs)
  | .arr a' es => .arr a' (mutateArr a key nv es)
  | v => v

def mutateObj (a : Nat) (key : String) (nv : AVal) : AObj → AObj
  | .nil => .nil
  | .cons k v rest => .cons k (mutateVal a key nv v) (mutateObj a key nv rest)

def mutateArr (a : Nat) (key : String) (nv : AVal) : AArr → AArr
  | .nil => .nil
  | .cons v rest => .cons (mutateVal a key nv v) (mutateArr a key nv rest)
end

/-- `models.Config` with an address-tagged data document. -/
structure AConfig where
  name : String
  type : String
  version : Int
  data : AVal
  createdAt : Nat
  updatedAt : Nat

/-- `models.ConfigVersion` with an address-tagged data document. -/
structure AConfigVersion where
  version : Int
  data : AVal
  createdAt : Nat

/-- The repository's two maps plus the heap allocator state (`next` is the
next fresh address; every live address is below it). -/
structure AStore where
  configs : List (String × AConfig)
  versions : List (String × List AConfigVersion)
  next : Nat

def AStore.empty (next : Nat) : AStore := ⟨[], [], next⟩

namespace ARepo

/-- `InMemoryRepository.Create`, address-aware: `r.configs[config.Name] =
config` stores the caller's object — its `Data` map reference included —
while the version snapshot stores a `copyData` copy. -/
def create (s : AStore) (now : Nat) (name ty : String) (data : AVal) :
    Except ConfigError AConfig × AStore :=
  match alookup s.configs name with
  | some _ => (.error (.configExists name), s)
  | none =>
      let cfg : AConfig := ⟨name, ty, 1, data, now, now⟩
      let snap := acopyVal s.next data
      (.ok cfg,
       ⟨upsert s.configs name cfg, upsert s.versions name [⟨1, snap.1, now⟩], snap.2⟩)

/-- `InMemoryRepository.Get`, address-aware: the returned record carries a
`copyData` copy of the stored data (fresh map addresses). -/
def get (s : AStore) (name : String) : Except ConfigError AConfig × AStore :=
  match alookup s.configs name with
  | none => (.error (.configNotFound name), s)
  | some cfg =>
      let d := acopyVal s.next cfg.data
      (.ok { cfg with data := d.1 }, { s with next := d.2 })

end ARepo

/-- The heap write `heap[a][key] = nv` as observed by the store: every
stored tree aliasing address `a` is updated. -/
def mutateStore (s : AStore) (a : Nat) (key : String) (nv : AVal) : AStore :=
  ⟨s.configs.map fun p => (p.1, { p.2 with data := mutateVal a key nv p.2.data }),
   s.versions.map fun p =>
     (p.1, p.2.map fun q => { q with data := mutateVal a key nv q.data }),
   s.next⟩

/-- The caller's document `{max_limit: 1000, enabled: true}`, a heap map at
address 0. -/
def callerDoc : AVal :=
  .obj 0 (.cons "max_limit" (.int 1000) (.cons "enabled" (.bool true) .nil))

/-- The store after `Create("test_config", "payment_config", callerDoc)` at
time 0 (the caller's map occupies address 0, so allocation starts at 1). -/
def aStore1 : AStore :=
  (ARepo.create (AStore.empty 1) 0 "test_config" "payment_config" callerDoc).2

/-- The store as observed after the caller executes
`callerDoc["max_limit"] = 9999` on the map it still holds. -/
def aStore1Mutated : AStore := mutateStore aStore1 0 "max_limit" (.int 9999)

/-- C3: `Create` stores the caller-supplied data document by reference, so
the store boundary is not a structurally independent deep copy: after
`Create("test_config", …, callerDoc)` succeeds, the caller's assignment
`callerDoc["max_limit"] = 9999` changes what a subsequent `Get` returns
(9999 instead of the stored 1000), contradicting the claimed isolation.
The version-1 snapshot was `copyData`-copied at create time and is the only
protected copy. -/
theorem create_stores_caller_reference :
    (ARepo.get aStore1 "test_config").1 =
      .ok ⟨"test_config", "payment_config", 1,
           .obj 2 (.cons "max_limit" (.int 1000) (.cons "enabled" (.bool true) .nil)),
           0, 0⟩ ∧
    (ARepo.get aStore1Mutated "test_config").1 =
      .ok ⟨"test_config", "payment_config", 1,
           .obj 2 (.cons "max_limit" (.int 9999) (.cons "enabled" (.bool true) .nil)),
           0, 0⟩ ∧
    AVal.int 9999 ≠ AVal.int 1000 :=
  ⟨rfl, rfl, fun h => absurd (AVal.int.inj h) (by decide)⟩

end ConfigEngine
